import Mathlib

/-!
rtp-authenticator: a shallow embedding of `point/authenticator/authenticator.go`

Go values are embedded as follows.

* A Go `string` holding valid UTF-8 text is the list of its code points
  (`GoString`).  Every separator and prefix the program searches for is ASCII, so
  searching for it in the code points and in the UTF-8 bytes is the same thing.
  Strings that are not valid UTF-8 are outside the model.
* `[]byte` is `List Nat` with every element below 256; `int64` is `Int`, wrapped
  where the program can overflow.
* An `error` is a `GoError`; `nil` is `none`.  The text of an error made by
  `fmt.Errorf` is kept; the byte offset inside a `base32.CorruptInputError` and
  the text of operating-system errors are not.
* `(T, error)` results are `Except GoError T`; a method that changes the store
  returns its error together with the new state.
* What the package reads from outside is an explicit parameter: the clock
  reading `now`, the HMAC-SHA1 primitive, the Unicode case table behind
  `strings.ToUpper`, and the outcome of the file-system calls of `saveAccounts`.
* Of the standard library, `strings.Split`, `strings.HasPrefix`,
  `strings.ReplaceAll`, `strings.ToUpper`, `base32.StdEncoding.DecodeString`,
  `binary.BigEndian` and `fmt.Sprintf("%06d")` are modelled after their Go
  implementations.

The definitions come first, the theorems after them.
-/

namespace authenticator

/-- Go `string` (valid UTF-8 text), as its sequence of code points. -/
abbrev GoString := List Char

/-- Go `error` values built by this package.  `corruptInput` is
`base32.CorruptInputError` (the byte offset it carries is not modelled), `os` is an
error returned by the operating system or by `encoding/json`, `errorf text` is
`fmt.Errorf(text)` after formatting, and `wrapf text cause` is
`fmt.Errorf(text + "%v", cause)`. -/
inductive GoError where
  | corruptInput : GoError
  | os (code : Nat) : GoError
  | errorf (text : GoString) : GoError
  | wrapf (text : GoString) (cause : GoError) : GoError
  deriving DecidableEq, Repr

/-- The account record: `type Account struct { Name, Secret, Issuer string }`. -/
structure Account where
  Name : GoString
  Secret : GoString
  Issuer : GoString
  deriving DecidableEq, Repr

deriving instance DecidableEq for Except

/-! ## `strings` helpers used by the package -/

/-- Go `strings.HasPrefix(s, pre)`. -/
def HasPrefix (s pre : GoString) : Bool :=
  pre.isPrefixOf s

/-- Go `strings.Split(s, sep)` for a one-character separator, which is what every
call site of the package passes (`"?"`, `"/"`, `"&"`, `"="`): the pieces between
the occurrences of `sep`, in order; one more piece than there are occurrences. -/
def Split (sep : Char) : GoString → List GoString
  | [] => [[]]
  | c :: cs =>
    if c = sep then [] :: Split sep cs
    else
      match Split sep cs with
      | [] => [[c]]
      | p :: ps => (c :: p) :: ps

/-- Go `strings.ReplaceAll(s, old, "")` for a one-character `old`: every
occurrence of the character is deleted. -/
def ReplaceAllEmpty (old : Char) (s : GoString) : GoString :=
  s.filter (fun c => c ≠ old)

/-- Go `unicode.ToUpper(r)`: ASCII is handled by arithmetic on the code point, every
other rune goes through the Unicode case table `tbl`. -/
def unicodeToUpper (tbl : Char → Char) (r : Char) : Char :=
  if r.toNat ≤ 127 then
    if 97 ≤ r.toNat ∧ r.toNat ≤ 122 then Char.ofNat (r.toNat - 32) else r
  else tbl r

/-- Go `strings.ToUpper(s)` on valid UTF-8: `unicode.ToUpper` applied to every
rune (the ASCII fast path of the library computes the same string). -/
def ToUpper (tbl : Char → Char) (s : GoString) : GoString :=
  s.map (unicodeToUpper tbl)

/-! ## `ParseOTPAuthURL` -/

/-- A Go `map[string]string` as the list of its writes, newest first. -/
abbrev Params := List (GoString × GoString)

/-- Map read `m[k]` with the comma-ok form: the newest write to `k`. -/
def Params.get (m : Params) (k : GoString) : Option GoString :=
  match m with
  | [] => none
  | (k1, v) :: rest => if k1 = k then some v else Params.get rest k

/-- The loop `for _, param := range strings.Split(parts[1], "&")` of
`ParseOTPAuthURL`: a parameter is stored only when splitting it at `=` gives
exactly two pieces. -/
def parseParams : List GoString → Params → Params
  | [], m => m
  | param :: rest, m =>
    match Split '=' param with
    | [k, v] => parseParams rest ((k, v) :: m)
    | _ => parseParams rest m

/-- Go `ParseOTPAuthURL(url)`. -/
def ParseOTPAuthURL (url : GoString) : Except GoError Account :=
  if !HasPrefix url "otpauth://totp/".toList then
    .error (.errorf "invalid otpauth URL format".toList)
  else
    match Split '?' url with
    | [path, query] =>
      let pathParts := Split '/' path
      if pathParts.length < 3 then
        .error (.errorf "missing account name in URL".toList)
      else
        let accountName := pathParts.getD 2 []
        let params := parseParams (Split '&' query) []
        match params.get "secret".toList with
        | none => .error (.errorf "missing secret parameter".toList)
        | some secret =>
          let issuer := (params.get "issuer".toList).getD []
          let issuer := if issuer = [] then "Unknown".toList else issuer
          .ok { Name := accountName, Secret := secret, Issuer := issuer }
    | _ => .error (.errorf "malformed otpauth URL".toList)

/-- The scheme prefix `otpauth://totp/`. -/
def otpauthPrefix : GoString := "otpauth://totp/".toList

/-- The tail of `ParseOTPAuthURL`, from `params := make(map[string]string)` on,
with `pathParts[2]` already evaluated to `totp` (`Split_slash_path` below): what
the function returns once the prefix test and the `?` split are passed.  Used to
state intermediate lemmas only. -/
def parseQuery (query : GoString) : Except GoError Account :=
  let params := parseParams (Split '&' query) []
  match params.get "secret".toList with
  | none => .error (.errorf "missing secret parameter".toList)
  | some secret =>
    let issuer := (params.get "issuer".toList).getD []
    .ok { Name := "totp".toList, Secret := secret,
          Issuer := if issuer = [] then "Unknown".toList else issuer }

/-! ## `encoding/base32`: `StdEncoding.DecodeString` -/

/-- UTF-8 encoding of one code point: the bytes a Go string stores for it. -/
def utf8Bytes (c : Char) : List Nat :=
  let n := c.toNat
  if n < 0x80 then [n]
  else if n < 0x800 then [0xC0 + n / 0x40, 0x80 + n % 0x40]
  else if n < 0x10000 then [0xE0 + n / 0x1000, 0x80 + n / 0x40 % 0x40, 0x80 + n % 0x40]
  else [0xF0 + n / 0x40000, 0x80 + n / 0x1000 % 0x40, 0x80 + n / 0x40 % 0x40, 0x80 + n % 0x40]

/-- Conversion `[]byte(s)`. -/
def toBytes (s : GoString) : List Nat :=
  s.flatMap utf8Bytes

/-- The `decodeMap` of `base32.StdEncoding` (alphabet `A`..`Z`, `2`..`7`): the
5-bit value of an alphabet byte, `0xFF` for every other byte. -/
def decodeMap (b : Nat) : Nat :=
  if 65 ≤ b ∧ b ≤ 90 then b - 65
  else if 50 ≤ b ∧ b ≤ 55 then b - 50 + 26
  else 0xFF

/-- The library's `stripNewlines`: `\r` and `\n` are dropped before decoding. -/
def stripNewlines (src : List Nat) : List Nat :=
  src.filter (fun b => b ≠ 13 ∧ b ≠ 10)

/-- The inner loop `for j := 0; j < 8;` of the library's `decode`: reads one
quantum of up to eight symbols.  `j` symbols are already in `dbuf`.  Gives `none`
on corrupt input, else the symbols read, whether padding ended the input, and the
unread rest. -/
def readQuantum : Nat → List Nat → List Nat → Option (List Nat × Bool × List Nat)
  | _, _, [] => none
  | j, dbuf, b :: src =>
    if b = 61 ∧ 2 ≤ j ∧ src.length < 8 then
      if src.length + j < 8 - 1 then none
      else if (src.take (8 - 1 - j)).any (fun x => x ≠ 61) then none
      else if j = 1 ∨ j = 3 ∨ j = 6 then none
      else some (dbuf, true, src)
    else if decodeMap b = 0xFF then none
    else if j + 1 < 8 then readQuantum (j + 1) (dbuf ++ [decodeMap b]) src
    else some (dbuf ++ [decodeMap b], false, src)

/-- The `switch dlen` of the library's `decode`: packs the 5-bit symbols of one
quantum into bytes; 8, 7, 5, 4, 2 symbols give 5, 4, 3, 2, 1 bytes. -/
def packQuantum (dbuf : List Nat) : List Nat :=
  let d := fun i => dbuf.getD i 0
  let out := [ (d 0 * 8 + d 1 / 4) % 256,
               (d 1 * 64 + d 2 * 2 + d 3 / 16) % 256,
               (d 3 * 16 + d 4 / 2) % 256,
               (d 4 * 128 + d 5 * 4 + d 6 / 8) % 256,
               (d 6 * 32 + d 7) % 256 ]
  match dbuf.length with
  | 8 => out.take 5
  | 7 => out.take 4
  | 5 => out.take 3
  | 4 => out.take 2
  | 2 => out.take 1
  | _ => []

/-- The outer loop `for len(src) > 0 && !end` of the library's `decode`.  Each
round consumes at least one byte, so `fuel = len(src)` rounds always suffice. -/
def decodeLoop : Nat → List Nat → Option (List Nat)
  | _, [] => some []
  | 0, _ :: _ => some []
  | fuel + 1, b :: src =>
    match readQuantum 0 [] (b :: src) with
    | none => none
    | some (dbuf, ended, rest) =>
      if ended then some (packQuantum dbuf)
      else (decodeLoop fuel rest).map (fun tail => packQuantum dbuf ++ tail)

/-- Go `base32.StdEncoding.DecodeString(s)`: `none` stands for a
`CorruptInputError`, `some key` for the decoded bytes. -/
def DecodeString (s : GoString) : Option (List Nat) :=
  let src := stripNewlines (toBytes s)
  decodeLoop src.length src

/-! ## The TOTP engine -/

/-- Wrap-around of a mathematical integer into Go `int64`. -/
def wrapInt64 (x : Int) : Int :=
  (x + 2 ^ 63) % 2 ^ 64 - 2 ^ 63

/-- Conversion `uint64(x)` of an `int64`. -/
def toUint64 (x : Int) : Nat :=
  (x % 2 ^ 64).toNat

/-- Go `binary.BigEndian.PutUint64`: the eight bytes of `v`, most significant
first. -/
def PutUint64 (v : Nat) : List Nat :=
  [v / 2 ^ 56 % 256, v / 2 ^ 48 % 256, v / 2 ^ 40 % 256, v / 2 ^ 32 % 256,
   v / 2 ^ 24 % 256, v / 2 ^ 16 % 256, v / 2 ^ 8 % 256, v % 256]

/-- Go `binary.BigEndian.Uint32` of the four bytes `b[o]`..`b[o+3]`. -/
def Uint32At (b : List Nat) (o : Nat) : Nat :=
  b.getD o 0 * 2 ^ 24 + b.getD (o + 1) 0 * 2 ^ 16 + b.getD (o + 2) 0 * 2 ^ 8 + b.getD (o + 3) 0

/-- The character of a decimal digit. -/
def digitChar (d : Nat) : Char :=
  Char.ofNat (48 + d)

/-- Decimal digits of `n`, most significant first, as `%d` prints them. -/
def decimal (n : Nat) : GoString :=
  if n = 0 then ['0'] else ((Nat.digits 10 n).reverse).map digitChar

/-- Go `fmt.Sprintf("%06d", n)` for an unsigned `n`: the decimal digits,
left-padded with `0` to a width of six (never truncated). -/
def sprintf06d (n : Nat) : GoString :=
  List.replicate (6 - (decimal n).length) '0' ++ decimal n

/-- Go `GenerateTOTP(secret, timeStep)`, with the reading `now` of
`time.Now().Unix()` and the primitive `hmacSha1 key msg` (`hmac.New(sha1.New, key)`,
`Write(msg)`, `Sum(nil)`) as parameters.  `/` on `int64` is `Int.tdiv`; every
caller passes `timeStep = 30` (a zero step would panic in Go and is not
modelled).  `uint32(math.Pow10(6))` is `1000000`. -/
def GenerateTOTP (hmacSha1 : List Nat → List Nat → List Nat) (now : Int)
    (secret : GoString) (timeStep : Int) : Except GoError GoString :=
  match DecodeString secret with
  | none => .error (.wrapf "failed to decode secret: ".toList .corruptInput)
  | some key =>
    let counter := wrapInt64 (Int.tdiv now timeStep)
    let counterBytes := PutUint64 (toUint64 counter)
    let hash := hmacSha1 key counterBytes
    let offset := (hash.getD (hash.length - 1) 0) &&& 0x0F
    let truncated := (Uint32At hash offset) &&& 0x7FFFFFFF
    let code := truncated % 1000000
    .ok (sprintf06d code)

/-- Dynamic truncation as the specification words it: the offset is the low four
bits of the last digest byte, the four bytes from the offset are read big-endian,
the sign bit is dropped and the result is reduced modulo one million. -/
def specTruncate (digest : List Nat) : Nat :=
  let o := digest.getD 19 0 % 16
  (digest.getD o 0 * 16777216 + digest.getD (o + 1) 0 * 65536 + digest.getD (o + 2) 0 * 256
      + digest.getD (o + 3) 0) % 2147483648 % 1000000

/-- The zero-padded six-digit decimal rendering the specification asks for. -/
def sixDigits (v : Nat) : GoString :=
  [digitChar (v / 100000 % 10), digitChar (v / 10000 % 10), digitChar (v / 1000 % 10),
   digitChar (v / 100 % 10), digitChar (v / 10 % 10), digitChar (v % 10)]

/-- Go `GetTimeRemaining()`, with the reading `now` of `time.Now().Unix()` as a
parameter: `30 - int(now % 30)`, `%` being Go's truncated remainder. -/
def GetTimeRemaining (now : Int) : Int :=
  30 - Int.tmod now 30

/-! ## The account store -/

/-- The handle `type Authenticator struct { Accounts []Account; DataFile string }`. -/
structure Authenticator where
  Accounts : List Account
  DataFile : GoString
  deriving DecidableEq, Repr

/-- What `saveAccounts` meets outside the process during one call: the error, if
any, of `json.MarshalIndent`, of `os.WriteFile` on the temporary file and of
`os.Rename`. -/
structure SaveEnv where
  marshalErr : Option GoError
  writeErr : Option GoError
  renameErr : Option GoError

/-- The state a store operation acts on: the handle, and the log of the account
sequences `saveAccounts` has been called on (newest first). -/
structure State where
  auth : Authenticator
  saves : List (List Account)
  deriving DecidableEq, Repr

/-- Go `(a *Authenticator) saveAccounts()`: marshal, write the temporary file,
rename it over `DataFile`; the first failing step is wrapped and returned. -/
def saveAccounts (env : SaveEnv) (st : State) : Option GoError × State :=
  let st1 : State := { st with saves := st.auth.Accounts :: st.saves }
  match env.marshalErr with
  | some err => (some (.wrapf "failed to marshal Accounts: ".toList err), st1)
  | none =>
    match env.writeErr with
    | some err => (some (.wrapf "failed to write temp file: ".toList err), st1)
    | none =>
      match env.renameErr with
      | some err => (some (.wrapf "failed to rename temp file: ".toList err), st1)
      | none => (none, st1)

/-- Go `(a *Authenticator) AddAccount(name, secret, issuer)`; `tbl` is the Unicode
case table behind `strings.ToUpper`. -/
def AddAccount (tbl : Char → Char) (env : SaveEnv) (name secret issuer : GoString)
    (st : State) : Option GoError × State :=
  let secret := ToUpper tbl (ReplaceAllEmpty ' ' secret)
  match DecodeString secret with
  | none => (some (.wrapf "invalid secret: ".toList .corruptInput), st)
  | some _ =>
    if st.auth.Accounts.any (fun account => account.Name = name) then
      (some (.errorf ("account '".toList ++ name ++ "' already exists".toList)), st)
    else
      let account : Account := { Name := name, Secret := secret, Issuer := issuer }
      let st1 : State := { st with auth := { st.auth with Accounts := st.auth.Accounts ++ [account] } }
      match saveAccounts env st1 with
      | (some err, st2) =>
        (some (.wrapf "failed to save account: ".toList err),
          { st2 with auth := { st2.auth with
              Accounts := st2.auth.Accounts.take (st2.auth.Accounts.length - 1) } })
      | (none, st2) => (none, st2)

/-- The search `for i, account := range a.Accounts { if account.Name == name`
of `RemoveAccount`: the index of the first account called `name`, counted from
`i`. -/
def findAccount (name : GoString) : List Account → Nat → Option Nat
  | [], _ => none
  | account :: rest, i => if account.Name = name then some i else findAccount name rest (i + 1)

/-- Go `(a *Authenticator) RemoveAccount(name)`. -/
def RemoveAccount (env : SaveEnv) (name : GoString) (st : State) : Option GoError × State :=
  match findAccount name st.auth.Accounts 0 with
  | some i =>
    let st1 : State := { st with auth := { st.auth with
        Accounts := st.auth.Accounts.take i ++ st.auth.Accounts.drop (i + 1) } }
    match saveAccounts env st1 with
    | (some err, st2) => (some (.wrapf "failed to save after removing account: ".toList err), st2)
    | (none, st2) => (none, st2)
  | none => (some (.errorf ("account '".toList ++ name ++ "' not found".toList)), st)

/-- The normalisation the specification describes for `add`: the secret is
uppercased and every whitespace character (space, tab, newline) is removed. -/
def specNormalize (tbl : Char → Char) (secret : GoString) : GoString :=
  (ToUpper tbl secret).filter (fun c => c ≠ ' ' ∧ c ≠ Char.ofNat 9 ∧ c ≠ Char.ofNat 10)

/-- The state `AddAccount` hands to `saveAccounts`: `a.Accounts` with the new
account appended. -/
def appended (tbl : Char → Char) (name secret issuer : GoString) (st : State) : State :=
  ⟨⟨st.auth.Accounts ++ [⟨name, ToUpper tbl (ReplaceAllEmpty ' ' secret), issuer⟩],
    st.auth.DataFile⟩, st.saves⟩

/-! ## Sample values -/

/-- A file system on which every step of `saveAccounts` succeeds. -/
def saveOk : SaveEnv := ⟨none, none, none⟩

/-- A file system on which writing the temporary file fails. -/
def saveFails : SaveEnv := ⟨none, some (.os 28), none⟩

/-- A store holding two accounts. -/
def sampleStore : State :=
  ⟨⟨[⟨"alice".toList, "JBSWY3DPEHPK3PXP".toList, "Example".toList⟩,
     ⟨"bob".toList, "MFRGGZA=".toList, "Unknown".toList⟩], "accounts.json".toList⟩, []⟩

/-! ## Facts about the `strings` helpers -/

theorem Split_ne_nil (sep : Char) (s : GoString) : Split sep s ≠ [] := by
  induction s with
  | nil => simp [Split]
  | cons c cs ih =>
    unfold Split
    split
    · simp
    · split <;> simp

theorem Split_no_sep (sep : Char) (s : GoString) (h : sep ∉ s) : Split sep s = [s] := by
  induction s with
  | nil => simp [Split]
  | cons c cs ih =>
    have hc : c ≠ sep := fun e => h (by simp [e])
    have hcs : sep ∉ cs := fun e => h (by simp [e])
    simp [Split, hc, ih hcs]

theorem Split_append_sep (sep : Char) (a b : GoString) (h : sep ∉ a) :
    Split sep (a ++ sep :: b) = a :: Split sep b := by
  induction a with
  | nil => simp [Split]
  | cons c cs ih =>
    have hc : c ≠ sep := fun e => h (by simp [e])
    have hcs : sep ∉ cs := fun e => h (by simp [e])
    simp [Split, hc, ih hcs]

theorem Split_length (sep : Char) (s : GoString) :
    (Split sep s).length = s.count sep + 1 := by
  induction s with
  | nil => simp [Split]
  | cons c cs ih =>
    unfold Split
    by_cases hc : c = sep
    · subst hc
      simp [ih]
    · have hne : (c == sep) = false := by simpa using hc
      rw [if_neg hc, List.count_cons, hne]
      cases hsp : Split sep cs with
      | nil => exact absurd hsp (Split_ne_nil sep cs)
      | cons p ps =>
        rw [hsp] at ih
        simpa using ih

theorem Split_append_left (sep : Char) (a b : GoString) (h : sep ∉ a) :
    Split sep (a ++ b) = (a ++ (Split sep b).headD []) :: (Split sep b).tail := by
  induction a with
  | nil =>
    cases hsp : Split sep b with
    | nil => exact absurd hsp (Split_ne_nil sep b)
    | cons p ps => simp [hsp]
  | cons c cs ih =>
    have hc : c ≠ sep := fun e => h (by simp [e])
    have hcs : sep ∉ cs := fun e => h (by simp [e])
    simp [Split, hc, ih hcs]

theorem Split_slash_path (rest : GoString) :
    Split '/' (otpauthPrefix ++ rest)
      = "otpauth:".toList :: [] :: "totp".toList :: Split '/' rest := by
  have e : otpauthPrefix ++ rest
      = "otpauth:".toList ++ '/' :: ([] ++ '/' :: ("totp".toList ++ '/' :: rest)) := by
    simp [otpauthPrefix]
  rw [e, Split_append_sep _ _ _ (by decide), Split_append_sep _ _ _ (by decide),
    Split_append_sep _ _ _ (by decide)]

theorem HasPrefix_append (pre rest : GoString) : HasPrefix (pre ++ rest) pre = true := by
  induction pre with
  | nil => simp [HasPrefix]
  | cons c cs ih => simp [HasPrefix]

theorem HasPrefix_iff (s pre : GoString) : HasPrefix s pre = true ↔ ∃ rest, s = pre ++ rest := by
  unfold HasPrefix
  rw [List.isPrefixOf_iff_prefix]
  constructor
  · rintro ⟨t, rfl⟩
    exact ⟨t, rfl⟩
  · rintro ⟨t, rfl⟩
    exact ⟨t, rfl⟩

/-! ## Facts about `ParseOTPAuthURL` -/

theorem ParseOTPAuthURL_of_split (rest path query : GoString)
    (h : Split '?' (otpauthPrefix ++ rest) = [path, query]) :
    ParseOTPAuthURL (otpauthPrefix ++ rest) = parseQuery query := by
  have hpath : ∃ p, path = otpauthPrefix ++ p := by
    rw [Split_append_left '?' otpauthPrefix rest (by decide)] at h
    simp only [List.cons.injEq] at h
    exact ⟨_, h.1.symm⟩
  obtain ⟨p, rfl⟩ := hpath
  have hpre : HasPrefix (otpauthPrefix ++ rest) otpauthPrefix = true := HasPrefix_append _ _
  unfold ParseOTPAuthURL
  have hpre2 : HasPrefix (otpauthPrefix ++ rest) "otpauth://totp/".toList = true := hpre
  simp only [hpre2, Bool.not_true, Bool.false_eq_true, if_false, h]
  rw [Split_slash_path]
  simp [parseQuery]

theorem ParseOTPAuthURL_eval (label query : GoString) (hl : '?' ∉ label) (hq : '?' ∉ query) :
    ParseOTPAuthURL (otpauthPrefix ++ label ++ '?' :: query) = parseQuery query := by
  have h : Split '?' (otpauthPrefix ++ (label ++ '?' :: query)) = [otpauthPrefix ++ label, query] := by
    rw [← List.append_assoc, Split_append_sep, Split_no_sep _ _ hq]
    intro hmem
    rcases List.mem_append.1 hmem with h1 | h1
    · exact absurd h1 (by decide)
    · exact hl h1
  have := ParseOTPAuthURL_of_split (label ++ '?' :: query) _ _ h
  simpa [List.append_assoc] using this

theorem Split_kv (sep : Char) (k v : GoString) (hk : sep ∉ k) (hv : sep ∉ v) :
    Split sep (k ++ sep :: v) = [k, v] := by
  rw [Split_append_sep _ _ _ hk, Split_no_sep _ _ hv]

theorem parseQuery_secret_issuer (secret issuer : GoString)
    (hs : '?' ∉ secret ∧ '&' ∉ secret ∧ '=' ∉ secret)
    (hi : '?' ∉ issuer ∧ '&' ∉ issuer ∧ '=' ∉ issuer) :
    parseQuery ("secret=".toList ++ secret ++ "&issuer=".toList ++ issuer)
      = .ok { Name := "totp".toList, Secret := secret,
              Issuer := if issuer = [] then "Unknown".toList else issuer } := by
  have e : "secret=".toList ++ secret ++ "&issuer=".toList ++ issuer
      = ("secret".toList ++ '=' :: secret) ++ '&' :: ("issuer".toList ++ '=' :: issuer) := by
    simp
  have h1 : '&' ∉ "secret".toList ++ '=' :: secret := by
    intro hmem
    rcases List.mem_append.1 hmem with h | h
    · exact absurd h (by decide)
    · rcases List.mem_cons.1 h with h | h
      · exact absurd h (by decide)
      · exact hs.2.1 h
  have h2 : '&' ∉ "issuer".toList ++ '=' :: issuer := by
    intro hmem
    rcases List.mem_append.1 hmem with h | h
    · exact absurd h (by decide)
    · rcases List.mem_cons.1 h with h | h
      · exact absurd h (by decide)
      · exact hi.2.1 h
  have k1 : Split '=' ("secret".toList ++ '=' :: secret) = ["secret".toList, secret] :=
    Split_kv _ _ _ (by decide) hs.2.2
  have k2 : Split '=' ("issuer".toList ++ '=' :: issuer) = ["issuer".toList, issuer] :=
    Split_kv _ _ _ (by decide) hi.2.2
  have ne : ("issuer".toList = "secret".toList) = False := by decide
  unfold parseQuery
  rw [e, Split_append_sep _ _ _ h1, Split_no_sep _ _ h2]
  simp only [parseParams, k1, k2, Params.get, ne, if_false, if_true, Option.getD_some]

theorem parseQuery_secret_only (secret : GoString)
    (hs : '?' ∉ secret ∧ '&' ∉ secret ∧ '=' ∉ secret) :
    parseQuery ("secret=".toList ++ secret)
      = .ok { Name := "totp".toList, Secret := secret, Issuer := "Unknown".toList } := by
  have e : "secret=".toList ++ secret = "secret".toList ++ '=' :: secret := by simp
  have h1 : '&' ∉ "secret".toList ++ '=' :: secret := by
    intro hmem
    rcases List.mem_append.1 hmem with h | h
    · exact absurd h (by decide)
    · rcases List.mem_cons.1 h with h | h
      · exact absurd h (by decide)
      · exact hs.2.1 h
  have k1 : Split '=' ("secret".toList ++ '=' :: secret) = ["secret".toList, secret] :=
    Split_kv _ _ _ (by decide) hs.2.2
  unfold parseQuery
  rw [e, Split_no_sep _ _ h1]
  simp only [parseParams, k1, Params.get, if_true, Option.getD_none]
  simp

theorem Split_two (sep : Char) (s a b : GoString) (h : Split sep s = [a, b]) :
    s = a ++ sep :: b := by
  induction s generalizing a with
  | nil => simp [Split] at h
  | cons c cs ih =>
    unfold Split at h
    by_cases hc : c = sep
    · subst hc
      rw [if_pos rfl] at h
      simp only [List.cons.injEq] at h
      obtain ⟨rfl, h2⟩ := h
      have hcnt := Split_length c cs
      rw [h2] at hcnt
      have hz : cs.count c = 0 := by simpa using hcnt.symm
      have hnot : c ∉ cs := List.count_eq_zero.1 hz
      have := Split_no_sep c cs hnot
      rw [h2] at this
      simp only [List.cons.injEq, and_true] at this
      simp [this]
    · rw [if_neg hc] at h
      cases hsp : Split sep cs with
      | nil => exact absurd hsp (Split_ne_nil sep cs)
      | cons p ps =>
        rw [hsp] at h
        simp only [List.cons.injEq] at h
        obtain ⟨rfl, rfl⟩ := h
        have := ih p hsp
        simp [this]

theorem parseParams_get (ps : List GoString) (m : Params) (k v : GoString)
    (h : (parseParams ps m).get k = some v) :
    (∃ p ∈ ps, Split '=' p = [k, v]) ∨ m.get k = some v := by
  induction ps generalizing m with
  | nil => exact Or.inr (by simpa [parseParams] using h)
  | cons p rest ih =>
    unfold parseParams at h
    split at h
    · rename_i k1 v1 hkv
      rcases ih _ h with ⟨q, hq, hs⟩ | hm
      · exact Or.inl ⟨q, List.mem_cons_of_mem _ hq, hs⟩
      · unfold Params.get at hm
        by_cases hk : k1 = k
        · rw [if_pos hk] at hm
          subst hk
          have hv : v1 = v := by simpa using hm
          subst hv
          exact Or.inl ⟨p, List.mem_cons_self _ _, hkv⟩
        · rw [if_neg hk] at hm
          exact Or.inr hm
    · rcases ih _ h with ⟨q, hq, hs⟩ | hm
      · exact Or.inl ⟨q, List.mem_cons_of_mem _ hq, hs⟩
      · exact Or.inr hm

/-- Sub-claim (a) of C7: a URL without the scheme prefix is rejected. -/
theorem ParseOTPAuthURL_without_scheme (url : GoString)
    (h : HasPrefix url "otpauth://totp/".toList = false) :
    ParseOTPAuthURL url = .error (.errorf "invalid otpauth URL format".toList) := by
  unfold ParseOTPAuthURL
  simp only [h, Bool.not_false, if_true]

/-- Sub-claim (b) of C7: a URL that does not contain exactly one `?` is
rejected. -/
theorem ParseOTPAuthURL_question_marks (url : GoString) (h : url.count '?' ≠ 1) :
    ∃ e, ParseOTPAuthURL url = .error e := by
  unfold ParseOTPAuthURL
  by_cases hp : HasPrefix url "otpauth://totp/".toList = true
  · have hlen := Split_length '?' url
    simp only [hp, Bool.not_true, Bool.false_eq_true, if_false]
    split
    · rename_i path query hsp
      rw [hsp] at hlen
      simp only [List.length_cons, List.length_nil] at hlen
      omega
    · exact ⟨_, rfl⟩
  · simp only [hp, Bool.not_false, if_true]
    exact ⟨_, rfl⟩

/-- Sub-claim (d) of C7, as its contrapositive: whenever a URL is accepted, the
text after its `?` has a parameter `secret=<the returned secret>`; so a URL
whose query has no `secret` key is rejected. -/
theorem ParseOTPAuthURL_ok_has_secret (url : GoString) (acc : Account)
    (h : ParseOTPAuthURL url = .ok acc) :
    ∃ path query, url = path ++ '?' :: query
      ∧ ("secret".toList ++ '=' :: acc.Secret) ∈ Split '&' query := by
  unfold ParseOTPAuthURL at h
  split at h
  · exact absurd h (by simp)
  · split at h
    · rename_i path query hsp
      refine ⟨path, query, Split_two _ _ _ _ hsp, ?_⟩
      simp only at h
      split at h
      · exact absurd h (by simp)
      · split at h
        · exact absurd h (by simp)
        · rename_i secret hget
          have hacc : acc.Secret = secret := by
            simp only [Except.ok.injEq] at h
            rw [← h]
          rcases parseParams_get _ _ _ _ hget with ⟨q, hq, hs⟩ | hm
          · have := Split_two _ _ _ _ hs
            rw [hacc, ← this]
            exact hq
          · simp [Params.get] at hm
    · exact absurd h (by simp)

/-- Every URL that `ParseOTPAuthURL` accepts gets the account name `totp`: the
name is read from `pathParts[2]`, and the pieces of the path at `/` are
`otpauth:`, the empty string, `totp` and then the label. -/
theorem ParseOTPAuthURL_ok_name (url : GoString) (acc : Account)
    (h : ParseOTPAuthURL url = .ok acc) : acc.Name = "totp".toList := by
  by_cases hp : HasPrefix url "otpauth://totp/".toList = true
  · obtain ⟨rest, rfl⟩ := (HasPrefix_iff _ _).1 hp
    cases hsp : Split '?' ("otpauth://totp/".toList ++ rest) with
    | nil => exact absurd hsp (Split_ne_nil _ _)
    | cons path tl =>
      cases tl with
      | nil =>
        unfold ParseOTPAuthURL at h
        simp only [hp, hsp, Bool.not_true, Bool.false_eq_true, if_false] at h
        exact absurd h (by simp)
      | cons query tl2 =>
        cases tl2 with
        | nil =>
          have := ParseOTPAuthURL_of_split rest path query hsp
          have e : ParseOTPAuthURL ("otpauth://totp/".toList ++ rest) = parseQuery query := this
          rw [e] at h
          unfold parseQuery at h
          simp only at h
          split at h
          · exact absurd h (by simp)
          · simp only [Except.ok.injEq] at h
            rw [← h]
        | cons x tl3 =>
          unfold ParseOTPAuthURL at h
          simp only [hp, hsp, Bool.not_true, Bool.false_eq_true, if_false] at h
          exact absurd h (by simp)
  · have hf : HasPrefix url "otpauth://totp/".toList = false := Bool.eq_false_iff.2 hp
    rw [ParseOTPAuthURL_without_scheme url hf] at h
    exact absurd h (by simp)

/-! ## C1, C6, C7: URL import -/

/-- C1, as stated, fails on the code.  For the URL of the claim,
`otpauth://totp/Alice?secret=JBSWY3DPEHPK3PXP&issuer=Example`, the returned name is
`totp` and not the label `Alice`; and for an empty issuer (label `totp`, so that
the name happens to agree) the returned issuer is `Unknown`, not the empty
string of the URL. -/
theorem ParseOTPAuthURL_label_counterexample :
    ParseOTPAuthURL ("otpauth://totp/".toList ++ "Alice".toList ++ "?secret=".toList
        ++ "JBSWY3DPEHPK3PXP".toList ++ "&issuer=".toList ++ "Example".toList)
      = .ok { Name := "totp".toList, Secret := "JBSWY3DPEHPK3PXP".toList,
              Issuer := "Example".toList }
    ∧ ParseOTPAuthURL ("otpauth://totp/".toList ++ "Alice".toList ++ "?secret=".toList
        ++ "JBSWY3DPEHPK3PXP".toList ++ "&issuer=".toList ++ "Example".toList)
      ≠ .ok { Name := "Alice".toList, Secret := "JBSWY3DPEHPK3PXP".toList,
              Issuer := "Example".toList }
    ∧ ParseOTPAuthURL ("otpauth://totp/".toList ++ "totp".toList ++ "?secret=".toList
        ++ "JBSWY3DPEHPK3PXP".toList ++ "&issuer=".toList ++ [])
      = .ok { Name := "totp".toList, Secret := "JBSWY3DPEHPK3PXP".toList,
              Issuer := "Unknown".toList }
    ∧ ParseOTPAuthURL ("otpauth://totp/".toList ++ "totp".toList ++ "?secret=".toList
        ++ "JBSWY3DPEHPK3PXP".toList ++ "&issuer=".toList ++ [])
      ≠ .ok { Name := "totp".toList, Secret := "JBSWY3DPEHPK3PXP".toList, Issuer := [] } := by
  decide

/-- C1 (amended): for every label containing no `/` and no `?`, and every secret
and issuer containing none of `?`, `&`, `=`, `ParseOTPAuthURL` applied to
`otpauth://totp/<label>?secret=<secret>&issuer=<issuer>` succeeds and returns an
account whose `Secret` is `secret` and whose `Issuer` is `issuer` when that is
non-empty and `Unknown` when it is empty.  (The returned `Name` is not part of
this statement.) -/
theorem ParseOTPAuthURL_secret_issuer (label secret issuer : GoString)
    (hl : '/' ∉ label ∧ '?' ∉ label)
    (hs : '?' ∉ secret ∧ '&' ∉ secret ∧ '=' ∉ secret)
    (hi : '?' ∉ issuer ∧ '&' ∉ issuer ∧ '=' ∉ issuer) :
    ∃ acc, ParseOTPAuthURL ("otpauth://totp/".toList ++ label ++ "?secret=".toList
              ++ secret ++ "&issuer=".toList ++ issuer) = .ok acc
      ∧ acc.Secret = secret
      ∧ acc.Issuer = (if issuer = [] then "Unknown".toList else issuer) := by
  have hq : '?' ∉ "secret=".toList ++ secret ++ "&issuer=".toList ++ issuer := by
    intro hmem
    simp only [List.mem_append] at hmem
    rcases hmem with ((h | h) | h) | h
    · exact absurd h (by decide)
    · exact hs.1 h
    · exact absurd h (by decide)
    · exact hi.1 h
  have e : "otpauth://totp/".toList ++ label ++ "?secret=".toList ++ secret
        ++ "&issuer=".toList ++ issuer
      = otpauthPrefix ++ label ++ '?' ::
          ("secret=".toList ++ secret ++ "&issuer=".toList ++ issuer) := by
    simp [otpauthPrefix]
  rw [e, ParseOTPAuthURL_eval _ _ hl.2 hq, parseQuery_secret_issuer _ _ hs hi]
  exact ⟨_, rfl, rfl, rfl⟩

/-- Witness for C1 (amended), at the URL of the claim. -/
theorem ParseOTPAuthURL_secret_issuer_witness :
    ∃ acc, ParseOTPAuthURL ("otpauth://totp/".toList ++ "Alice".toList ++ "?secret=".toList
              ++ "JBSWY3DPEHPK3PXP".toList ++ "&issuer=".toList ++ "Example".toList) = .ok acc
      ∧ acc.Secret = "JBSWY3DPEHPK3PXP".toList
      ∧ acc.Issuer = (if "Example".toList = [] then "Unknown".toList else "Example".toList) :=
  ParseOTPAuthURL_secret_issuer "Alice".toList "JBSWY3DPEHPK3PXP".toList "Example".toList
    (by decide) (by decide) (by decide)

/-- C6, as stated, fails on the code.  `MFRGGZA=` is padded Base32 (it decodes to
the four bytes of `abcd`), yet `otpauth://totp/Alice?secret=MFRGGZA=` is rejected
with `missing secret parameter`; and a label containing `?` makes the URL
malformed. -/
theorem ParseOTPAuthURL_padded_secret_counterexample :
    DecodeString "MFRGGZA=".toList = some [97, 98, 99, 100]
    ∧ ParseOTPAuthURL ("otpauth://totp/".toList ++ "Alice".toList ++ "?secret=".toList
        ++ "MFRGGZA=".toList)
      = .error (.errorf "missing secret parameter".toList)
    ∧ ParseOTPAuthURL ("otpauth://totp/".toList ++ "a?b".toList ++ "?secret=".toList
        ++ "MFRGGZA".toList)
      = .error (.errorf "malformed otpauth URL".toList) := by
  decide

/-- C6 (amended): for every label containing no `?` and every secret `s`
containing none of `?`, `&`, `=` (every Base32 string that carries no padding is
one), `ParseOTPAuthURL` applied to `otpauth://totp/<label>?secret=<s>` succeeds
with `Secret = s`, neither validated nor decoded, and `Issuer = "Unknown"`. -/
theorem ParseOTPAuthURL_secret_default_issuer (label secret : GoString)
    (hl : '?' ∉ label) (hs : '?' ∉ secret ∧ '&' ∉ secret ∧ '=' ∉ secret) :
    ∃ acc, ParseOTPAuthURL ("otpauth://totp/".toList ++ label ++ "?secret=".toList ++ secret)
              = .ok acc
      ∧ acc.Secret = secret ∧ acc.Issuer = "Unknown".toList := by
  have hq : '?' ∉ "secret=".toList ++ secret := by
    intro hmem
    rcases List.mem_append.1 hmem with h | h
    · exact absurd h (by decide)
    · exact hs.1 h
  have e : "otpauth://totp/".toList ++ label ++ "?secret=".toList ++ secret
      = otpauthPrefix ++ label ++ '?' :: ("secret=".toList ++ secret) := by
    simp [otpauthPrefix]
  rw [e, ParseOTPAuthURL_eval _ _ hl hq, parseQuery_secret_only _ hs]
  exact ⟨_, rfl, rfl, rfl⟩

/-- Witness for C6 (amended): a label with a `/` and a secret that is not Base32
at all. -/
theorem ParseOTPAuthURL_secret_default_issuer_witness :
    ∃ acc, ParseOTPAuthURL ("otpauth://totp/".toList ++ "Example/alice".toList
              ++ "?secret=".toList ++ "not base32!".toList) = .ok acc
      ∧ acc.Secret = "not base32!".toList ∧ acc.Issuer = "Unknown".toList :=
  ParseOTPAuthURL_secret_default_issuer "Example/alice".toList "not base32!".toList
    (by decide) (by decide)

/-- C7, sub-claim (c), on the code: the URL `otpauth://totp/?secret=JBSWY3DPEHPK3PXP`
has an empty label, and `ParseOTPAuthURL` accepts it, with the account name
`totp`. -/
theorem ParseOTPAuthURL_empty_label_accepted :
    ParseOTPAuthURL "otpauth://totp/?secret=JBSWY3DPEHPK3PXP".toList
      = .ok { Name := "totp".toList, Secret := "JBSWY3DPEHPK3PXP".toList,
              Issuer := "Unknown".toList } := by
  decide

/-! ## C8: `GetTimeRemaining` -/

/-- C8, as stated, fails on the code: one second before the epoch the value is
31, outside `[1, 30]`. -/
theorem GetTimeRemaining_before_epoch_counterexample :
    -(2 : Int) ^ 63 ≤ -1 ∧ (-1 : Int) < 2 ^ 63 ∧ GetTimeRemaining (-1) = 31
    ∧ ¬ (1 ≤ GetTimeRemaining (-1) ∧ GetTimeRemaining (-1) ≤ 30) := by
  decide

/-- C8 (amended): for every clock reading `now` at or after the epoch,
`GetTimeRemaining`, that is `30 - (now % 30)`, lies in the closed range
`[1, 30]`. -/
theorem GetTimeRemaining_range (now : Int) (h : 0 ≤ now) :
    1 ≤ GetTimeRemaining now ∧ GetTimeRemaining now ≤ 30 := by
  unfold GetTimeRemaining
  have h1 : 0 ≤ Int.tmod now 30 := Int.tmod_nonneg 30 h
  have h2 : Int.tmod now 30 < 30 := Int.tmod_lt_of_pos now (by decide)
  omega

/-- Witness for C8 (amended), at `now = 59`. -/
theorem GetTimeRemaining_range_witness :
    (0 : Int) ≤ 59 ∧ 1 ≤ GetTimeRemaining 59 ∧ GetTimeRemaining 59 ≤ 30 :=
  ⟨by decide, GetTimeRemaining_range 59 (by decide)⟩

/-- Before the epoch Go's remainder is not positive, and the value lies in
`[30, 59]`. -/
theorem GetTimeRemaining_range_negative (now : Int) (h : now < 0) :
    30 ≤ GetTimeRemaining now ∧ GetTimeRemaining now ≤ 59 := by
  unfold GetTimeRemaining
  obtain ⟨n, rfl⟩ := Int.eq_negSucc_of_lt_zero h
  have e : Int.tmod (Int.negSucc n) 30 = -(((n + 1) % 30 : Nat) : Int) := rfl
  rw [e]
  have h2 : (n + 1) % 30 < 30 := Nat.mod_lt _ (by decide)
  omega

/-! ## The Base32 decoder terminates within its fuel -/

theorem readQuantum_length (src : List Nat) :
    ∀ (j : Nat) (dbuf d : List Nat) (e : Bool) (rest : List Nat),
      readQuantum j dbuf src = some (d, e, rest) → rest.length < src.length := by
  induction src with
  | nil =>
    intro j dbuf d e rest h
    simp [readQuantum] at h
  | cons b src ih =>
    intro j dbuf d e rest h
    unfold readQuantum at h
    split at h
    · split at h
      · exact absurd h (by simp)
      · split at h
        · exact absurd h (by simp)
        · split at h
          · exact absurd h (by simp)
          · simp only [Option.some.injEq, Prod.mk.injEq] at h
            rw [← h.2.2]
            simp
    · split at h
      · exact absurd h (by simp)
      · split at h
        · have := ih _ _ _ _ _ h
          simp only [List.length_cons]
          omega
        · simp only [Option.some.injEq, Prod.mk.injEq] at h
          rw [← h.2.2]
          simp

/-- The fuel `len(src)` that `DecodeString` gives the loop is never exhausted:
any larger fuel computes the same result. -/
theorem decodeLoop_fuel (f1 : Nat) :
    ∀ (f2 : Nat) (src : List Nat), src.length ≤ f1 → src.length ≤ f2 →
      decodeLoop f1 src = decodeLoop f2 src := by
  induction f1 with
  | zero =>
    intro f2 src h1 _
    have : src = [] := List.length_eq_zero.1 (Nat.le_zero.1 h1)
    subst this
    cases f2 <;> rfl
  | succ f1 ih =>
    intro f2 src h1 h2
    cases src with
    | nil => cases f2 <;> rfl
    | cons b src =>
      cases f2 with
      | zero => simp at h2
      | succ f2 =>
        unfold decodeLoop
        cases hq : readQuantum 0 [] (b :: src) with
        | none => rfl
        | some r =>
          obtain ⟨dbuf, ended, rest⟩ := r
          have hlen := readQuantum_length _ _ _ _ _ _ hq
          simp only [List.length_cons] at hlen h1 h2
          simp only
          rw [ih f2 rest (by omega) (by omega)]

/-! ## C2: the TOTP engine -/

theorem digits_pad (k n : Nat) (h : n < 10 ^ k) :
    Nat.digits 10 n ++ List.replicate (k - (Nat.digits 10 n).length) 0
      = (List.range k).map (fun i => n / 10 ^ i % 10) := by
  induction k generalizing n with
  | zero =>
    have hn : n = 0 := by simpa using h
    subst hn
    simp
  | succ k ih =>
    by_cases hn : n = 0
    · subst hn
      simp only [Nat.digits_zero, List.length_nil, Nat.sub_zero, List.nil_append,
        Nat.zero_div, Nat.zero_mod]
      exact (List.eq_replicate_iff.2 ⟨by simp, by simp⟩).symm
    · have hpos : 0 < n := Nat.pos_of_ne_zero hn
      have hdiv : n / 10 < 10 ^ k := by
        apply Nat.div_lt_of_lt_mul
        rw [Nat.pow_succ, Nat.mul_comm] at h
        exact h
      rw [Nat.digits_def' (by decide) hpos, List.range_succ_eq_map]
      simp only [List.length_cons, Nat.add_sub_add_right, List.cons_append, List.map_cons,
        List.map_map, Nat.pow_zero, Nat.div_one]
      rw [ih (n / 10) hdiv]
      congr 1
      apply List.map_congr_left
      intro i _
      simp only [Function.comp, Nat.succ_eq_add_one, Nat.pow_succ]
      rw [Nat.div_div_eq_div_mul, Nat.mul_comm]

theorem digitChar_zero : digitChar 0 = '0' := by decide

theorem sprintf06d_eq (n : Nat) (h : n < 1000000) : sprintf06d n = sixDigits n := by
  by_cases hn : n = 0
  · subst hn
    decide
  · have hpad := digits_pad 6 n (by simpa using h)
    have hlen : (Nat.digits 10 n).length ≤ 6 := by
      have := congrArg List.length hpad
      simp only [List.length_append, List.length_replicate, List.length_map,
        List.length_range] at this
      omega
    unfold sprintf06d decimal
    rw [if_neg hn]
    simp only [List.length_map, List.length_reverse]
    have e : List.replicate (6 - (Nat.digits 10 n).length) '0'
        = (List.replicate (6 - (Nat.digits 10 n).length) 0).reverse.map digitChar := by
      simp [digitChar_zero]
    rw [e, ← List.map_append, ← List.reverse_append, hpad]
    simp [List.range, List.range.loop, sixDigits]

theorem digitChar_isDigit (d : Nat) (h : d < 10) : (digitChar d).isDigit = true := by
  revert d
  decide

theorem sixDigits_length (v : Nat) : (sixDigits v).length = 6 := rfl

theorem sixDigits_isDigit (v : Nat) : ∀ c ∈ sixDigits v, c.isDigit = true := by
  intro c hc
  simp only [sixDigits, List.mem_cons, List.mem_singleton, List.not_mem_nil, or_false] at hc
  rcases hc with rfl | rfl | rfl | rfl | rfl | rfl <;>
    exact digitChar_isDigit _ (Nat.mod_lt _ (by decide))

theorem land_0x0F (x : Nat) : x &&& 0x0F = x % 16 :=
  Nat.and_pow_two_sub_one_eq_mod x 4

theorem land_0x7FFFFFFF (x : Nat) : x &&& 0x7FFFFFFF = x % 2147483648 :=
  Nat.and_pow_two_sub_one_eq_mod x 31

theorem GenerateTOTP_eq (hmacSha1 : List Nat → List Nat → List Nat) (now : Int)
    (secret : GoString) (key : List Nat)
    (hlen : (hmacSha1 key (PutUint64 (toUint64 (wrapInt64 (Int.tdiv now 30))))).length = 20)
    (hkey : DecodeString secret = some key) :
    GenerateTOTP hmacSha1 now secret 30
      = .ok (sixDigits (specTruncate
          (hmacSha1 key (PutUint64 (toUint64 (wrapInt64 (Int.tdiv now 30))))))) := by
  unfold GenerateTOTP
  simp only [hkey, hlen]
  rw [sprintf06d_eq _ (Nat.mod_lt _ (by decide))]
  simp only [land_0x0F, land_0x7FFFFFFF, Uint32At, specTruncate]
  norm_num

/-- C2: for every secret that decodes as Base32, every clock reading `now` and
`timeStep = 30`, with HMAC-SHA1 a function returning a 20-byte digest,
`GenerateTOTP` returns no error and a string of exactly six characters, all of
them ASCII digits: the zero-padded decimal of the big-endian 32-bit value of
`digest[o..o+4]`, masked with `0x7FFFFFFF`, modulo 1000000, where
`o = digest[19] & 0x0F` (and that window lies inside the digest).  Two calls with
the same secret whose clock readings give the same counter, in particular the
same reading, return the same string. -/
theorem GenerateTOTP_six_digits (hmacSha1 : List Nat → List Nat → List Nat) (now : Int)
    (secret : GoString) (key : List Nat)
    (hdigest : ∀ k m, (hmacSha1 k m).length = 20 ∧ ∀ b ∈ hmacSha1 k m, b < 256)
    (hkey : DecodeString secret = some key) :
    ∃ code digest,
      digest = hmacSha1 key (PutUint64 (toUint64 (wrapInt64 (Int.tdiv now 30))))
      ∧ GenerateTOTP hmacSha1 now secret 30 = .ok code
      ∧ code.length = 6
      ∧ (∀ c ∈ code, c.isDigit = true)
      ∧ code = sixDigits (specTruncate digest)
      ∧ digest.getD 19 0 % 16 + 3 < digest.length
      ∧ ∀ now2 : Int, Int.tdiv now2 30 = Int.tdiv now 30 →
          GenerateTOTP hmacSha1 now2 secret 30 = .ok code := by
  refine ⟨_, _, rfl, GenerateTOTP_eq hmacSha1 now secret key (hdigest _ _).1 hkey,
    sixDigits_length _, sixDigits_isDigit _, rfl, ?_, ?_⟩
  · rw [(hdigest _ _).1]
    have : (hmacSha1 key (PutUint64 (toUint64 (wrapInt64 (Int.tdiv now 30))))).getD 19 0 % 16
        < 16 := Nat.mod_lt _ (by decide)
    omega
  · intro now2 h2
    rw [GenerateTOTP_eq hmacSha1 now2 secret key (hdigest _ _).1 hkey, h2]

/-- Witness for C2: the secret `JBSWY3DPEHPK3PXP`, the clock reading 59 and a
constant 20-byte digest. -/
theorem GenerateTOTP_six_digits_witness :
    DecodeString "JBSWY3DPEHPK3PXP".toList
        = some [72, 101, 108, 108, 111, 33, 222, 173, 190, 239]
    ∧ ∃ code, GenerateTOTP (fun _ _ => List.replicate 20 7) 59 "JBSWY3DPEHPK3PXP".toList 30
          = .ok code
        ∧ code.length = 6 ∧ ∀ c ∈ code, c.isDigit = true := by
  refine ⟨by decide, ?_⟩
  obtain ⟨code, _, _, h1, h2, h3, _⟩ :=
    GenerateTOTP_six_digits (fun _ _ => List.replicate 20 7) 59 "JBSWY3DPEHPK3PXP".toList
      [72, 101, 108, 108, 111, 33, 222, 173, 190, 239]
      (fun _ _ => ⟨by simp, fun b hb => by simp [List.eq_of_mem_replicate hb]⟩) (by decide)
  exact ⟨code, h1, h2, h3⟩

theorem unicodeToUpper_ascii (tbl : Char → Char) (r : Char) (h : r.toNat ≤ 127)
    (hne : r ≠ ' ') :
    unicodeToUpper tbl r ≠ ' '
      ∧ ¬ (97 ≤ (unicodeToUpper tbl r).toNat ∧ (unicodeToUpper tbl r).toNat ≤ 122) := by
  have key : ∀ n : Nat, n ≤ 127 → 97 ≤ n → n ≤ 122 →
      Char.ofNat (n - 32) ≠ ' ' ∧ ¬ (97 ≤ (Char.ofNat (n - 32)).toNat
        ∧ (Char.ofNat (n - 32)).toNat ≤ 122) := by
    decide
  unfold unicodeToUpper
  rw [if_pos h]
  by_cases hl : 97 ≤ r.toNat ∧ r.toNat ≤ 122
  · rw [if_pos hl]
    exact key r.toNat h hl.1 hl.2
  · rw [if_neg hl]
    exact ⟨hne, hl⟩

/-! ## Facts about the account store -/

theorem saveAccounts_state (env : SaveEnv) (st : State) :
    (saveAccounts env st).2 = { st with saves := st.auth.Accounts :: st.saves } := by
  unfold saveAccounts
  cases env.marshalErr <;> cases env.writeErr <;> cases env.renameErr <;> rfl

theorem any_name_iff (accounts : List Account) (name : GoString) :
    accounts.any (fun account => account.Name = name) = true
      ↔ ∃ a ∈ accounts, a.Name = name := by
  simp

theorem any_name_false (accounts : List Account) (name : GoString)
    (h : ∀ a ∈ accounts, a.Name ≠ name) :
    accounts.any (fun account => account.Name = name) = false := by
  rw [Bool.eq_false_iff, Ne, any_name_iff]
  rintro ⟨a, ha, hn⟩
  exact h a ha hn

theorem findAccount_none (name : GoString) (accounts : List Account) (i : Nat)
    (h : ∀ a ∈ accounts, a.Name ≠ name) : findAccount name accounts i = none := by
  induction accounts generalizing i with
  | nil => rfl
  | cons a rest ih =>
    unfold findAccount
    rw [if_neg (h a (List.mem_cons_self _ _))]
    exact ih (i + 1) (fun b hb => h b (List.mem_cons_of_mem _ hb))

theorem take_drop_sublist (accounts : List Account) (i : Nat) :
    (accounts.take i ++ accounts.drop (i + 1)).Sublist accounts := by
  rw [← List.eraseIdx_eq_take_drop_succ]
  exact List.eraseIdx_sublist accounts i

theorem AddAccount_invalid (tbl : Char → Char) (env : SaveEnv) (name secret issuer : GoString)
    (st : State) (h : DecodeString (ToUpper tbl (ReplaceAllEmpty ' ' secret)) = none) :
    AddAccount tbl env name secret issuer st
      = (some (.wrapf "invalid secret: ".toList .corruptInput), st) := by
  unfold AddAccount
  simp only [h]

theorem AddAccount_exists (tbl : Char → Char) (env : SaveEnv) (name secret issuer : GoString)
    (st : State) (key : List Nat)
    (h : DecodeString (ToUpper tbl (ReplaceAllEmpty ' ' secret)) = some key)
    (hany : st.auth.Accounts.any (fun account => account.Name = name) = true) :
    AddAccount tbl env name secret issuer st
      = (some (.errorf ("account '".toList ++ name ++ "' already exists".toList)), st) := by
  unfold AddAccount
  simp only [h, hany, if_true]

theorem AddAccount_saved (tbl : Char → Char) (env : SaveEnv) (name secret issuer : GoString)
    (st : State) (key : List Nat)
    (h : DecodeString (ToUpper tbl (ReplaceAllEmpty ' ' secret)) = some key)
    (hany : st.auth.Accounts.any (fun account => account.Name = name) = false) :
    AddAccount tbl env name secret issuer st
      = match (saveAccounts env (appended tbl name secret issuer st)).1 with
        | some err =>
          (some (.wrapf "failed to save account: ".toList err),
            ⟨st.auth, (appended tbl name secret issuer st).auth.Accounts :: st.saves⟩)
        | none =>
          (none, ⟨(appended tbl name secret issuer st).auth,
            (appended tbl name secret issuer st).auth.Accounts :: st.saves⟩) := by
  have h2 := saveAccounts_state env (appended tbl name secret issuer st)
  unfold AddAccount
  simp only [h, hany, Bool.false_eq_true, if_false]
  change (match saveAccounts env (appended tbl name secret issuer st) with
    | (some err, st2) => _
    | (none, st2) => _) = _
  cases hsave : saveAccounts env (appended tbl name secret issuer st) with
  | mk res st2 =>
    rw [hsave] at h2
    simp only at h2
    subst h2
    cases res with
    | some err => simp [appended]
    | none => simp [appended]

/-- The state `AddAccount` hands to `saveAccounts`: the account is appended. -/
theorem AddAccount_cases (tbl : Char → Char) (env : SaveEnv) (name secret issuer : GoString)
    (st : State) :
    (AddAccount tbl env name secret issuer st).2.auth.Accounts = st.auth.Accounts
    ∨ ((∀ a ∈ st.auth.Accounts, a.Name ≠ name)
        ∧ (AddAccount tbl env name secret issuer st).2.auth.Accounts
            = st.auth.Accounts
                ++ [⟨name, ToUpper tbl (ReplaceAllEmpty ' ' secret), issuer⟩]) := by
  cases hdec : DecodeString (ToUpper tbl (ReplaceAllEmpty ' ' secret)) with
  | none =>
    rw [AddAccount_invalid tbl env name secret issuer st hdec]
    exact Or.inl rfl
  | some key =>
    by_cases hany : st.auth.Accounts.any (fun account => account.Name = name) = true
    · rw [AddAccount_exists tbl env name secret issuer st key hdec hany]
      exact Or.inl rfl
    · have hfresh : ∀ a ∈ st.auth.Accounts, a.Name ≠ name := by
        intro a ha hn
        exact hany ((any_name_iff _ _).2 ⟨a, ha, hn⟩)
      rw [AddAccount_saved tbl env name secret issuer st key hdec (Bool.eq_false_iff.2 hany)]
      cases (saveAccounts env (appended tbl name secret issuer st)).1 with
      | some err => exact Or.inl rfl
      | none => exact Or.inr ⟨hfresh, rfl⟩

/-! ## C3, C4, C5, C9, C10: the account store -/

/-- C3, as stated, fails on the code: the secret is validated before the name is
looked up, so adding the existing name `alice` with the secret `1`, which is not
Base32, returns the invalid-secret error and not the duplicate-account error. -/
theorem AddAccount_duplicate_counterexample :
    (∃ a ∈ sampleStore.auth.Accounts, a.Name = "alice".toList)
    ∧ AddAccount id saveOk "alice".toList "1".toList "x".toList sampleStore
        = (some (.wrapf "invalid secret: ".toList .corruptInput), sampleStore)
    ∧ (AddAccount id saveOk "alice".toList "1".toList "x".toList sampleStore).1
        ≠ some (.errorf ("account '".toList ++ "alice".toList ++ "' already exists".toList)) := by
  decide

/-- C3 (amended): for every store, every name equal to the `Name` of some account
already in `Accounts`, and every secret and issuer, `AddAccount` fails and leaves
the store as it was (same accounts in the same order, and no save attempted); the
error is the duplicate-account error `account '<name>' already exists` when the
normalized secret decodes as Base32, and the invalid-secret error otherwise. -/
theorem AddAccount_duplicate (tbl : Char → Char) (env : SaveEnv)
    (name secret issuer : GoString) (st : State)
    (hdup : ∃ a ∈ st.auth.Accounts, a.Name = name) :
    (AddAccount tbl env name secret issuer st).2 = st
    ∧ ((DecodeString (ToUpper tbl (ReplaceAllEmpty ' ' secret))).isSome = true →
        (AddAccount tbl env name secret issuer st).1
          = some (.errorf ("account '".toList ++ name ++ "' already exists".toList)))
    ∧ (DecodeString (ToUpper tbl (ReplaceAllEmpty ' ' secret)) = none →
        (AddAccount tbl env name secret issuer st).1
          = some (.wrapf "invalid secret: ".toList .corruptInput)) := by
  have hany := (any_name_iff st.auth.Accounts name).2 hdup
  cases hdec : DecodeString (ToUpper tbl (ReplaceAllEmpty ' ' secret)) with
  | none =>
    rw [AddAccount_invalid tbl env name secret issuer st hdec]
    exact ⟨rfl, fun h => absurd h (by simp), fun _ => rfl⟩
  | some key =>
    rw [AddAccount_exists tbl env name secret issuer st key hdec hany]
    exact ⟨rfl, fun _ => rfl, fun h => absurd h (by simp)⟩

/-- Witness for C3 (amended): the name `alice` is added a second time, with a
valid secret. -/
theorem AddAccount_duplicate_witness :
    (∃ a ∈ sampleStore.auth.Accounts, a.Name = "alice".toList)
    ∧ (AddAccount id saveOk "alice".toList "mfrg gzdf".toList "x".toList sampleStore).2
        = sampleStore
    ∧ (AddAccount id saveOk "alice".toList "mfrg gzdf".toList "x".toList sampleStore).1
        = some (.errorf ("account '".toList ++ "alice".toList ++ "' already exists".toList)) :=
  have h := AddAccount_duplicate id saveOk "alice".toList "mfrg gzdf".toList "x".toList
    sampleStore (by decide)
  ⟨by decide, h.1, h.2.1 (by decide)⟩

/-- C4: for every store and every `(name, secret, issuer)` that passes secret
validation and the duplicate check, if `saveAccounts` fails then `AddAccount`
returns an error (the save error, wrapped) and the in-memory `Accounts` sequence
after the call is the sequence before the call. -/
theorem AddAccount_rollback (tbl : Char → Char) (env : SaveEnv)
    (name secret issuer : GoString) (st : State) (key : List Nat) (err : GoError)
    (hvalid : DecodeString (ToUpper tbl (ReplaceAllEmpty ' ' secret)) = some key)
    (hfresh : ∀ a ∈ st.auth.Accounts, a.Name ≠ name)
    (hfail : (saveAccounts env (appended tbl name secret issuer st)).1 = some err) :
    (AddAccount tbl env name secret issuer st).1
        = some (.wrapf "failed to save account: ".toList err)
    ∧ (AddAccount tbl env name secret issuer st).2.auth = st.auth
    ∧ (AddAccount tbl env name secret issuer st).2.auth.Accounts.length
        = st.auth.Accounts.length := by
  have hany := any_name_false st.auth.Accounts name hfresh
  rw [AddAccount_saved tbl env name secret issuer st key hvalid hany, hfail]
  exact ⟨rfl, rfl, rfl⟩

/-- Witness for C4: a new account `carol` is added while the temporary file
cannot be written. -/
theorem AddAccount_rollback_witness :
    (AddAccount id saveFails "carol".toList "mfrg gzdf".toList "x".toList sampleStore).1
        = some (.wrapf "failed to save account: ".toList
            (.wrapf "failed to write temp file: ".toList (.os 28)))
    ∧ (AddAccount id saveFails "carol".toList "mfrg gzdf".toList "x".toList sampleStore).2.auth
        = sampleStore.auth
    ∧ (AddAccount id saveFails "carol".toList "mfrg gzdf".toList
        "x".toList sampleStore).2.auth.Accounts.length = sampleStore.auth.Accounts.length :=
  AddAccount_rollback id saveFails "carol".toList "mfrg gzdf".toList "x".toList sampleStore
    [97, 98, 99, 100, 101] (.wrapf "failed to write temp file: ".toList (.os 28))
    (by decide) (by decide) (by decide)

/-- C5, as stated, fails on the code, which deletes the space character only.
With a tab inside the secret, `jbsw<TAB>y3dp`, the secret the specification
would store, `JBSWY3DP`, is valid Base32, yet `AddAccount` rejects the secret.
With a newline at the end, `jbswy3dp<LF>`, `AddAccount` succeeds (the decoder
skips newlines) and stores `JBSWY3DP<LF>`, whitespace included. -/
theorem AddAccount_whitespace_counterexample :
    (∀ a ∈ sampleStore.auth.Accounts, a.Name ≠ "carol".toList)
    ∧ specNormalize id ("jbsw".toList ++ [Char.ofNat 9] ++ "y3dp".toList) = "JBSWY3DP".toList
    ∧ DecodeString "JBSWY3DP".toList = some [72, 101, 108, 108, 111]
    ∧ AddAccount id saveOk "carol".toList ("jbsw".toList ++ [Char.ofNat 9] ++ "y3dp".toList)
          "x".toList sampleStore
        = (some (.wrapf "invalid secret: ".toList .corruptInput), sampleStore)
    ∧ specNormalize id ("jbswy3dp".toList ++ [Char.ofNat 10]) = "JBSWY3DP".toList
    ∧ (AddAccount id saveOk "carol".toList ("jbswy3dp".toList ++ [Char.ofNat 10])
          "x".toList sampleStore).1 = none
    ∧ (AddAccount id saveOk "carol".toList ("jbswy3dp".toList ++ [Char.ofNat 10])
          "x".toList sampleStore).2.auth.Accounts
        = sampleStore.auth.Accounts
            ++ [⟨"carol".toList, "JBSWY3DP".toList ++ [Char.ofNat 10], "x".toList⟩] := by
  decide

/-- C5 (amended): `add` normalizes the secret by deleting every space character
(U+0020) and uppercasing the rest, before validating and storing it: for every
store, every name not present in it, and every secret whose form with the spaces
deleted and the letters uppercased is accepted by the Base32 decoder, when the
persist succeeds `AddAccount` succeeds and the new `Accounts` sequence is the old
sequence followed by exactly one account `{name, that normalized string, issuer}`.
For an ASCII secret the stored secret contains no space and no lowercase letter.
Tabs and newlines are not deleted. -/
theorem AddAccount_normalizes (tbl : Char → Char) (env : SaveEnv)
    (name secret issuer : GoString) (st : State) (key : List Nat)
    (hfresh : ∀ a ∈ st.auth.Accounts, a.Name ≠ name)
    (hvalid : DecodeString (ToUpper tbl (ReplaceAllEmpty ' ' secret)) = some key)
    (hsave : (saveAccounts env (appended tbl name secret issuer st)).1 = none) :
    (AddAccount tbl env name secret issuer st).1 = none
    ∧ (AddAccount tbl env name secret issuer st).2.auth.Accounts
        = st.auth.Accounts ++ [⟨name, ToUpper tbl (ReplaceAllEmpty ' ' secret), issuer⟩]
    ∧ ((∀ c ∈ secret, c.toNat ≤ 127) →
        ∀ c ∈ ToUpper tbl (ReplaceAllEmpty ' ' secret),
          c ≠ ' ' ∧ ¬ (97 ≤ c.toNat ∧ c.toNat ≤ 122)) := by
  have hany := any_name_false st.auth.Accounts name hfresh
  rw [AddAccount_saved tbl env name secret issuer st key hvalid hany, hsave]
  refine ⟨rfl, rfl, ?_⟩
  intro hascii c hc
  simp only [ToUpper, ReplaceAllEmpty, List.mem_map, List.mem_filter] at hc
  obtain ⟨r, ⟨hr, hne⟩, rfl⟩ := hc
  have hr127 := hascii r hr
  have hne2 : r ≠ ' ' := by simpa using hne
  exact unicodeToUpper_ascii tbl r hr127 hne2

/-- Witness for C5 (amended): the secret `mfrg gzdf` is stored as `MFRGGZDF`. -/
theorem AddAccount_normalizes_witness :
    (AddAccount id saveOk "carol".toList "mfrg gzdf".toList "x".toList sampleStore).1 = none
    ∧ (AddAccount id saveOk "carol".toList "mfrg gzdf".toList "x".toList
          sampleStore).2.auth.Accounts
        = sampleStore.auth.Accounts ++ [⟨"carol".toList, "MFRGGZDF".toList, "x".toList⟩] := by
  have h := AddAccount_normalizes id saveOk "carol".toList "mfrg gzdf".toList "x".toList
    sampleStore [97, 98, 99, 100, 101] (by decide) (by decide) (by decide)
  exact ⟨h.1, h.2.1⟩

/-- C9: for every store whose `Accounts` contain no two entries with the same
`Name`, after any call `AddAccount(name, secret, issuer)` or `RemoveAccount(name)`,
whatever the secret is and whether or not the persist succeeds, `Accounts` still
contain no two entries with the same `Name`. -/
theorem name_uniqueness_preserved (tbl : Char → Char) (env : SaveEnv) (st : State)
    (h : (st.auth.Accounts.map Account.Name).Nodup) :
    (∀ name secret issuer : GoString,
        ((AddAccount tbl env name secret issuer st).2.auth.Accounts.map Account.Name).Nodup)
    ∧ (∀ name : GoString,
        ((RemoveAccount env name st).2.auth.Accounts.map Account.Name).Nodup) := by
  constructor
  · intro name secret issuer
    rcases AddAccount_cases tbl env name secret issuer st with he | ⟨hfresh, he⟩
    · rw [he]
      exact h
    · rw [he, List.map_append, List.nodup_append]
      refine ⟨h, by simp, ?_⟩
      intro x hx hx2
      simp only [List.map_cons, List.map_nil, List.mem_singleton] at hx2
      subst hx2
      obtain ⟨a, ha, hn⟩ := List.mem_map.1 hx
      exact hfresh a ha hn
  · intro name
    unfold RemoveAccount
    cases hfind : findAccount name st.auth.Accounts 0 with
    | none => exact h
    | some i =>
      simp only
      have h2 := saveAccounts_state env
        ⟨⟨st.auth.Accounts.take i ++ st.auth.Accounts.drop (i + 1), st.auth.DataFile⟩, st.saves⟩
      have hsub : ((st.auth.Accounts.take i ++ st.auth.Accounts.drop (i + 1)).map
          Account.Name).Nodup :=
        List.Nodup.sublist ((take_drop_sublist st.auth.Accounts i).map _) h
      cases hsave : saveAccounts env
        ⟨⟨st.auth.Accounts.take i ++ st.auth.Accounts.drop (i + 1), st.auth.DataFile⟩,
          st.saves⟩ with
      | mk res st2 =>
        rw [hsave] at h2
        simp only at h2
        subst h2
        cases res with
        | some err => exact hsub
        | none => exact hsub

/-- Witness for C9: on the two-account store, an add that fails to persist, an
add that succeeds and a remove all keep the names distinct. -/
theorem name_uniqueness_preserved_witness :
    (sampleStore.auth.Accounts.map Account.Name).Nodup
    ∧ ((AddAccount id saveFails "carol".toList "mfrg gzdf".toList "x".toList
          sampleStore).2.auth.Accounts.map Account.Name).Nodup
    ∧ ((AddAccount id saveOk "carol".toList "mfrg gzdf".toList "x".toList
          sampleStore).2.auth.Accounts.map Account.Name).Nodup
    ∧ ((RemoveAccount saveFails "alice".toList sampleStore).2.auth.Accounts.map
          Account.Name).Nodup :=
  ⟨by decide,
   (name_uniqueness_preserved id saveFails sampleStore (by decide)).1 _ _ _,
   (name_uniqueness_preserved id saveOk sampleStore (by decide)).1 _ _ _,
   (name_uniqueness_preserved id saveFails sampleStore (by decide)).2 _⟩

/-- C10: for every store and every name that is the `Name` of no account in
`Accounts`, `RemoveAccount(name)` returns the error `account '<name>' not found`,
makes no call of `saveAccounts`, and leaves `Accounts` as it was. -/
theorem RemoveAccount_not_found (env : SaveEnv) (name : GoString) (st : State)
    (h : ∀ a ∈ st.auth.Accounts, a.Name ≠ name) :
    (RemoveAccount env name st).1
        = some (.errorf ("account '".toList ++ name ++ "' not found".toList))
    ∧ (RemoveAccount env name st).2.saves = st.saves
    ∧ (RemoveAccount env name st).2.auth.Accounts = st.auth.Accounts
    ∧ (RemoveAccount env name st).2 = st := by
  unfold RemoveAccount
  rw [findAccount_none name st.auth.Accounts 0 h]
  exact ⟨rfl, rfl, rfl, rfl⟩

/-- Witness for C10: `carol` is not in the two-account store. -/
theorem RemoveAccount_not_found_witness :
    (RemoveAccount saveOk "carol".toList sampleStore).1
        = some (.errorf ("account '".toList ++ "carol".toList ++ "' not found".toList))
    ∧ (RemoveAccount saveOk "carol".toList sampleStore).2.saves = sampleStore.saves
    ∧ (RemoveAccount saveOk "carol".toList sampleStore).2.auth.Accounts
        = sampleStore.auth.Accounts
    ∧ (RemoveAccount saveOk "carol".toList sampleStore).2 = sampleStore :=
  RemoveAccount_not_found saveOk "carol".toList sampleStore (by decide)

end authenticator
